import Mathlib

/-!
Shallow embedding of the multi-echo slice-indexing and completeness engine of
`me_concat/concatenate_multiecho.py` (functions `concatenate_scan`,
`find_incomplete_dicom_sets`, `get_slice_index` and the `mp.Pool(16)` header
extraction), together with the theorems settling the specification claims.

Python dicts keyed by slice index are embedded as association lists
`List (Nat × List String)` in insertion order; `sorted(...)` is embedded as
`List.insertionSort`; code that can raise is embedded in `Option` / `Except`.
-/

namespace XNATFetch

/-- Python exception kinds that the embedded code can raise. -/
inductive PyErr where
  | indexError
  | attributeError
  | nameError
  | valueError
  | zeroDivisionError
deriving DecidableEq, Repr

/-- Sequential fallible map: Python loops that abort at the first raised
exception (returns `none` as soon as one element fails). -/
def mapOpt {α β : Type} (f : α → Option β) : List α → Option (List β)
  | [] => some []
  | a :: l => (f a).bind (fun b => (mapOpt f l).bind (fun bs => some (b :: bs)))

/-- Python `dict` lookup on an association list in insertion order. -/
def dictGet {β : Type} (m : List (Nat × β)) (k : Nat) : Option β :=
  match m with
  | [] => none
  | (k', v) :: rest => if k = k' then some v else dictGet rest k

/-- Character class `[0-9]` of the `fileNumbering` regex (line 403). -/
def isDigitChar (c : Char) : Bool := decide (48 ≤ c.toNat ∧ c.toNat ≤ 57)

/-- Character class `[0-9a-zA-Z]` of the `fileNumbering` regex (line 403). -/
def isAlnumChar (c : Char) : Bool :=
  isDigitChar c || decide (97 ≤ c.toNat ∧ c.toNat ≤ 122)
    || decide (65 ≤ c.toNat ∧ c.toNat ≤ 90)

/-- Extension test `[Dd][Cc][Mm]$`, the tail of the `fileNumbering` regex. -/
def isDcmExt : List Char → Bool
  | [d, c, m] =>
    (d = 'd' || d = 'D') && (c = 'c' || c = 'C') && (m = 'm' || m = 'M')
  | _ => false

/-- Value of a matched `[0-9]+` group, as Python `int(...)` of the digits. -/
def digitsToNat (ds : List Char) : Nat :=
  ds.foldl (fun acc c => 10 * acc + (c.toNat - 48)) 0

/-- Matching of `([0-9]+)-[0-9a-zA-Z]+\.[Dd][Cc][Mm]$` against the characters
following a candidate `-`; greedy `[0-9]+` and `[0-9a-zA-Z]+` become maximal
`takeWhile` runs because the characters that follow them (`-` and `.`) are
outside both classes. -/
def parseAfterDash (rest : List Char) : Option Nat :=
  if rest.takeWhile isDigitChar ≠ []
      ∧ (rest.dropWhile isDigitChar).head? = some '-'
      ∧ ((rest.dropWhile isDigitChar).drop 1).takeWhile isAlnumChar ≠ []
      ∧ (((rest.dropWhile isDigitChar).drop 1).dropWhile isAlnumChar).head?
          = some '.'
      ∧ isDcmExt ((((rest.dropWhile isDigitChar).drop 1).dropWhile
          isAlnumChar).drop 1) = true
  then some (digitsToNat (rest.takeWhile isDigitChar))
  else none

/-- Embedding of `re.match` for `.*-([0-9]+)-[0-9a-zA-Z]+\.[Dd][Cc][Mm]$`: the greedy `.*`
(which does not match a newline) prefers the rightmost `-` at which the rest
of the pattern matches.  `none` models the `AttributeError` raised by
`fileNumbering.match(f).group(1)` on a non-matching name. -/
def fileNumberMatch : List Char → Option Nat
  | [] => none
  | c :: rest =>
    if c = '\n' then none
    else (fileNumberMatch rest).or (if c = '-' then parseAfterDash rest else none)

/-- The file-sequence-number sort key `fileNumberExtractor` (line 404),
applied to the path string of a DICOM file. -/
def fileNumberKey (f : String) : Option Nat := fileNumberMatch f.data

/-- Declarative form of the filename shape accepted by the `fileNumbering`
regex: `<anything without newline>-<digits>-<alphanumerics>.dcm` with a
case-insensitive extension.  The three-way decomposition after the dash. -/
def TailPattern (tail : List Char) : Prop :=
  ∃ ds al ext, tail = ds ++ '-' :: (al ++ '.' :: ext) ∧
    ds ≠ [] ∧ (∀ c ∈ ds, isDigitChar c = true) ∧
    al ≠ [] ∧ (∀ c ∈ al, isAlnumChar c = true) ∧ isDcmExt ext = true

/-- Declarative form of the full filename pattern required by the ordering
step: some prefix (free of newlines, matched by `.*`), then
`-<digits>-<alphanumerics>.dcm` (case-insensitive extension). -/
def DcmNamePattern (cs : List Char) : Prop :=
  ∃ pre tail, cs = pre ++ '-' :: tail ∧ (∀ c ∈ pre, c ≠ '\n') ∧ TailPattern tail

/-- Embedding of `sorted(index_mapping[index], key=fileNumberExtractor)` (line 408):
extract every file's sequence number (first failure raises), then sort the
files by that key. -/
def sortByFileNumber (files : List String) : Option (List String) :=
  (mapOpt (fun f => (fileNumberKey f).map (fun n => (n, f))) files).map
    (fun ps => (ps.insertionSort (fun p q => p.1 ≤ q.1)).map Prod.snd)

/-- One step of the `index_mapping` construction loop (lines 395-400): append
the file to its index's list, creating the key on first sight. -/
def addFileToMapping (m : List (Nat × List String)) (idx : Nat) (f : String) :
    List (Nat × List String) :=
  if (dictGet m idx).isSome then
    m.map (fun kv => if kv.1 = idx then (kv.1, kv.2 ++ [f]) else kv)
  else
    m ++ [(idx, [f])]

/-- The `index_mapping` dict built from `zip(dicom_list, index_list)`
(lines 395-400), where `h` is the per-file header slice-index reader
`get_slice_index`. -/
def buildIndexMapping (files : List String) (h : String → Nat) :
    List (Nat × List String) :=
  files.foldl (fun m f => addFileToMapping m (h f) f) []

/-- The per-index sorting loop (lines 407-408) over the whole mapping. -/
def sortIndexMapping (m : List (Nat × List String)) :
    Option (List (Nat × List String)) :=
  mapOpt (fun kv => (sortByFileNumber kv.2).map (fun fs => (kv.1, fs))) m

/-- Quantity `nTotalSlices` (line 411): the number of DICOM files, i.e. the sum of the
per-index multiplicities of the mapping. -/
def nTotalSlices (m : List (Nat × List String)) : Nat :=
  (m.map (fun kv => kv.2.length)).sum

/-- Quantity `nSpatialSlices = len(index_mapping) // echoes` (line 412): floor
division, with no divisibility check on the distinct-index count. -/
def nSpatialSlices (m : List (Nat × List String)) (echoes : Nat) : Nat :=
  m.length / echoes

/-- Quantity `nTimePoints = nTotalSlices // (echoes * nSpatialSlices)` (line 414). -/
def nTimePoints (m : List (Nat × List String)) (echoes : Nat) : Nat :=
  nTotalSlices m / (echoes * nSpatialSlices m echoes)

/-- Embedding of `slice_indices = sorted(index_mapping.keys())` (line 416). -/
def sliceIndicesSorted (m : List (Nat × List String)) : List Nat :=
  (m.map Prod.fst).insertionSort (fun a b => a ≤ b)

/-- Embedding of `slice_indices_by_echo[e] = slice_indices[e*n : e*n + n]` (line 418):
echo `e`'s contiguous block of the ascending-sorted distinct indices. -/
def sliceIndicesByEcho (m : List (Nat × List String)) (echoes e : Nat) :
    List Nat :=
  ((sliceIndicesSorted m).drop (e * nSpatialSlices m echoes)).take
    (nSpatialSlices m echoes)

/-- Cell value `concat_file_list[e][t][x] = index_mapping[slice_indices_by_echo[e][x]][t]`
(lines 426-428); `none` models the `IndexError` raised when the index's file
list is shorter than `t + 1`. -/
def manifestCell (m : List (Nat × List String)) (echoes e t x : Nat) :
    Option String :=
  ((sliceIndicesByEcho m echoes e)[x]?).bind (fun idx =>
    (dictGet m idx).bind (fun files => files[t]?))

/-- The `[timepoint][spatialPosition]` grid of echo `e` filled by the triple
loop of lines 423-428. -/
def echoRows (m : List (Nat × List String)) (echoes e : Nat) :
    Option (List (List String)) :=
  mapOpt (fun t =>
      mapOpt (fun x => manifestCell m echoes e t x)
        (List.range (nSpatialSlices m echoes)))
    (List.range (nTimePoints m echoes))

/-- Manifest text `concat_files[e]` (line 429): one line per timepoint, each line the
space-separated file paths across spatial positions. -/
def manifestText (rows : List (List String)) : String :=
  String.intercalate "\n" (rows.map (fun row => String.intercalate " " row))

/-- The file-ordering builder (lines 410-434): geometry derivation plus the
per-echo manifest contents written to the `_me{echo}_infilelist` files.
`echoes = 0` models the Python `ZeroDivisionError` of `// echoes`, and a zero
`nSpatialSlices` models the `ValueError` of `range(0, 0, 0)` (line 418). -/
def buildManifests (m : List (Nat × List String)) (echoes : Nat) :
    Except PyErr (List String) :=
  if echoes = 0 then Except.error PyErr.zeroDivisionError
  else if nSpatialSlices m echoes = 0 then Except.error PyErr.valueError
  else
    match mapOpt (fun e => echoRows m echoes e) (List.range echoes) with
    | none => Except.error PyErr.indexError
    | some rowss => Except.ok (rowss.map manifestText)

/-- The manifest-producing core of `concatenate_scan` (lines 380-434): the
divisibility check of line 390 on the raw file count, then mapping
construction, per-index sorting, and manifest building. -/
def concatenateScanCore (files : List String) (h : String → Nat)
    (echoes : Nat) : Except PyErr (List String) :=
  if echoes = 0 then Except.error PyErr.zeroDivisionError
  else if files.length % echoes ≠ 0 then Except.error PyErr.indexError
  else
    match sortIndexMapping (buildIndexMapping files h) with
    | none => Except.error PyErr.attributeError
    | some m => buildManifests m echoes

/-- Declared acquisition parameters of one scan directory, as read by
`find_incomplete_dicom_sets` (lines 216-224): header slice count `(0020,1002)`,
header volume count `(0020,0105)`, and the actual `.dcm` file count. -/
structure ScanDirInfo where
  name : String
  sliceNum : Nat
  volNum : Nat
  fileCount : Nat
deriving DecidableEq, Repr

/-- The consumed `find_incomplete_dicom_sets` generator (lines 216-224).  For
a scan with `vol_num * slice_num != len(files)` the body executes
`yield scan`, but no variable `scan` is bound in that function, so consuming
the generator raises `NameError` instead of yielding the scan directory. -/
def findIncompleteDicomSets : List ScanDirInfo → Except PyErr (List String)
  | [] => Except.ok []
  | s :: rest =>
    if s.volNum * s.sliceNum ≠ s.fileCount then Except.error PyErr.nameError
    else findIncompleteDicomSets rest

/-- One worker-pool header read: `get_slice_index(dicom_list[i])`. -/
def headerRead (h : String → Nat) (files : List String) (i : Nat) : Nat :=
  h (files.getD i "")

/-- The pool's completion stream under a scheduling order `sched` of input
positions: each completed task carries its input position and result. -/
def poolCompletions (h : String → Nat) (files : List String)
    (sched : List Nat) : List (Nat × Nat) :=
  sched.map (fun i => (i, headerRead h files i))

/-- Result of `pool.map(get_slice_index, dicom_list)` (lines 381-382) reassembled by
input position: result slot `i` is looked up from the completion stream by
position, never taken in completion order. -/
def poolMapByPath (h : String → Nat) (files : List String)
    (sched : List Nat) : List (Option Nat) :=
  (List.range files.length).map (fun i => dictGet (poolCompletions h files sched) i)

/-- Orchestrator steps of `concatenate_scan` around the Dimon subprocesses. -/
inductive DimonEvent where
  | dispatch (e : Nat)
  | wait (e : Nat)
  | removeTempDir (e : Nat)
deriving DecidableEq, Repr

/-- The wait-then-cleanup loop (lines 473-479): for each echo in order,
`dimon_proc[nEcho].communicate()` then `shutil.rmtree(temp_dir)`. -/
def dimonWaitRemoveLoop (echoes : Nat) : List DimonEvent :=
  (List.range echoes).flatMap
    (fun e => [DimonEvent.wait e, DimonEvent.removeTempDir e])

/-- The orchestrator's step sequence from reconstruction dispatch (lines
448-468) through per-echo wait and temp-directory removal (lines 473-479). -/
def dimonTrace (echoes : Nat) : List DimonEvent :=
  (List.range echoes).map DimonEvent.dispatch ++ dimonWaitRemoveLoop echoes

/-- The (echo, timepoint, spatialPosition) ↦ path map realised by the built
echo file ordering: the cell of the manifest grid at those coordinates. -/
def placedFile (m : List (Nat × List String)) (echoes e t x : Nat) :
    Option String :=
  (echoRows m echoes e).bind (fun rows =>
    (rows[t]?).bind (fun row => row[x]?))

/-! ## Helper lemmas -/

theorem mapOpt_eq_some_of_forall {α β : Type} {f : α → Option β} :
    ∀ l : List α, (∀ a ∈ l, (f a).isSome = true) →
      ∃ out, mapOpt f l = some out ∧ out.length = l.length ∧
        ∀ i : Nat, out[i]? = (l[i]?).bind f := by
  intro l
  induction l with
  | nil => intro _; exact ⟨[], rfl, rfl, by intro i; simp⟩
  | cons a l ih =>
    intro hall
    obtain ⟨b, hb⟩ := Option.isSome_iff_exists.mp (hall a (List.mem_cons_self a l))
    obtain ⟨out, hout, hlen, hget⟩ := ih (fun x hx => hall x (List.mem_cons_of_mem a hx))
    refine ⟨b :: out, ?_, by simp [hlen], ?_⟩
    · simp [mapOpt, hb, hout]
    · intro i
      cases i with
      | zero => simp [hb]
      | succ i => simpa using hget i

theorem mapOpt_eq_none_iff {α β : Type} {f : α → Option β} :
    ∀ l : List α, (mapOpt f l = none ↔ ∃ a ∈ l, f a = none) := by
  intro l
  induction l with
  | nil => simp [mapOpt]
  | cons a l ih =>
    cases hfa : f a with
    | none =>
      exact iff_of_true (by simp [mapOpt, hfa]) ⟨a, List.mem_cons_self a l, hfa⟩
    | some b =>
      cases hml : mapOpt f l with
      | none =>
        refine iff_of_true (by simp [mapOpt, hfa, hml]) ?_
        obtain ⟨x, hx, hfx⟩ := ih.mp hml
        exact ⟨x, List.mem_cons_of_mem a hx, hfx⟩
      | some bs =>
        simp only [mapOpt, hfa, hml, Option.some_bind]
        constructor
        · intro h; cases h
        · rintro ⟨x, hx, hfx⟩
          rcases List.mem_cons.mp hx with rfl | hx'
          · rw [hfa] at hfx; cases hfx
          · have : mapOpt f l = none := ih.mpr ⟨x, hx', hfx⟩
            rw [hml] at this; cases this

theorem mapOpt_congr {α β : Type} {f g : α → Option β} :
    ∀ l : List α, (∀ a ∈ l, f a = g a) → mapOpt f l = mapOpt g l := by
  intro l
  induction l with
  | nil => intro _; rfl
  | cons a l ih =>
    intro h
    simp only [mapOpt, h a (List.mem_cons_self a l),
      ih (fun x hx => h x (List.mem_cons_of_mem a hx))]

theorem dictGet_isSome_iff {β : Type} :
    ∀ (m : List (Nat × β)) (k : Nat),
      ((dictGet m k).isSome = true ↔ k ∈ m.map Prod.fst) := by
  intro m
  induction m with
  | nil => intro k; simp [dictGet]
  | cons kv rest ih =>
    intro k
    obtain ⟨k', v⟩ := kv
    by_cases hk : k = k' <;> simp [dictGet, hk, ih k]

theorem dictGet_eq_some_mem {β : Type} :
    ∀ {m : List (Nat × β)} {k : Nat} {v : β}, dictGet m k = some v → (k, v) ∈ m := by
  intro m
  induction m with
  | nil => intro k v h; cases h
  | cons kv rest ih =>
    intro k v h
    obtain ⟨k', v'⟩ := kv
    by_cases hk : k = k'
    · rw [dictGet, if_pos hk] at h
      cases h
      subst hk
      exact List.mem_cons_self _ _
    · rw [dictGet, if_neg hk] at h
      exact List.mem_cons_of_mem _ (ih h)

theorem dictGet_perm {β : Type} {m₁ m₂ : List (Nat × β)} (h : m₁.Perm m₂) :
    (m₁.map Prod.fst).Nodup → ∀ k, dictGet m₁ k = dictGet m₂ k := by
  induction h with
  | nil => intro _ k; rfl
  | cons a h ih =>
    intro hnd k
    obtain ⟨ka, va⟩ := a
    by_cases hk : k = ka
    · simp [dictGet, hk]
    · simp only [dictGet]
      rw [if_neg hk, if_neg hk]
      refine ih ?_ k
      simp only [List.map_cons, List.nodup_cons] at hnd
      exact hnd.2
  | swap a b l =>
    intro hnd k
    obtain ⟨ka, va⟩ := a
    obtain ⟨kb, vb⟩ := b
    have hne : kb ≠ ka := by
      intro hEq
      subst hEq
      simp at hnd
    by_cases hkb : k = kb
    · subst hkb
      simp [dictGet, hne]
    · by_cases hka : k = ka
      · subst hka
        simp [dictGet, hkb]
      · simp [dictGet, hkb, hka]
  | trans h₁ h₂ ih₁ ih₂ =>
    intro hnd k
    exact (ih₁ hnd k).trans (ih₂ ((h₁.map Prod.fst).nodup_iff.mp hnd) k)

theorem dictGet_map_pair {β : Type} (g : Nat → β) :
    ∀ (sched : List Nat) (i : Nat), i ∈ sched →
      dictGet (sched.map (fun j => (j, g j))) i = some (g i) := by
  intro sched
  induction sched with
  | nil => intro i hi; cases hi
  | cons j sched ih =>
    intro i hi
    by_cases hij : i = j
    · subst hij
      simp [List.map_cons, dictGet]
    · rcases List.mem_cons.mp hi with h | h
      · exact absurd h hij
      · simp only [List.map_cons, dictGet, if_neg hij]
        exact ih i h

theorem map_range_getD {α β : Type} (g : α → β) (d : α) :
    ∀ l : List α,
      (List.range l.length).map (fun i => g (l.getD i d)) = l.map g := by
  intro l
  induction l with
  | nil => rfl
  | cons a l ih =>
    rw [List.length_cons, List.range_succ_eq_map]
    simp only [List.map_cons, List.map_map]
    refine congrArg (g a :: ·) ?_
    rw [← ih]
    exact List.map_congr_left (fun i _ => rfl)

/-! ## Claim theorems -/

/-- C2: the completeness check is supposed to yield each scan whose declared
slice count × volume count differs from its file count and to skip complete
scans; in the code the incomplete branch executes `yield scan` with `scan`
unbound, so consuming the enumeration raises `NameError` at the first
incomplete scan (here: declared 40 × 30 with 1150 files) while complete scans
are indeed not flagged. -/
theorem find_incomplete_namerror_c2 :
    findIncompleteDicomSets [⟨"7", 40, 30, 1150⟩] = Except.error PyErr.nameError ∧
      findIncompleteDicomSets [⟨"5", 40, 30, 1200⟩] = Except.ok [] := by
  constructor <;> rfl

/-- C6: whenever the number of DICOM files is not divisible by the declared
echo count, `concatenate_scan` raises `IndexError` at line 390, before any
index mapping or manifest is built. -/
theorem total_slices_divisibility_c6 (files : List String) (h : String → Nat)
    (echoes : Nat) (hech : 0 < echoes) (hndiv : files.length % echoes ≠ 0) :
    concatenateScanCore files h echoes = Except.error PyErr.indexError := by
  unfold concatenateScanCore
  rw [if_neg (Nat.pos_iff_ne_zero.mp hech), if_pos hndiv]

/-- Witness for C6: two files, three echoes. -/
theorem total_slices_divisibility_c6_witness :
    concatenateScanCore ["a", "b"] (fun _ => 0) 3 = Except.error PyErr.indexError :=
  total_slices_divisibility_c6 ["a", "b"] (fun _ => 0) 3 (by decide) (by decide)

/-- C7: the slice-index extraction, reassembled by input position, is a
deterministic function of the file list and header contents: any two pool
completion orders (permutations of the input positions) yield the same
per-file index sequence, namely the slice index of each file in input
order. -/
theorem pool_extraction_deterministic_c7 (h : String → Nat)
    (files : List String) (sched₁ sched₂ : List Nat)
    (h₁ : sched₁.Perm (List.range files.length))
    (h₂ : sched₂.Perm (List.range files.length)) :
    poolMapByPath h files sched₁ = poolMapByPath h files sched₂ ∧
      poolMapByPath h files sched₁ = files.map (fun f => some (h f)) := by
  have key : ∀ sched : List Nat, sched.Perm (List.range files.length) →
      poolMapByPath h files sched = files.map (fun f => some (h f)) := by
    intro sched hp
    unfold poolMapByPath poolCompletions
    have hpt : ∀ i ∈ List.range files.length,
        dictGet (sched.map (fun j => (j, headerRead h files j))) i
          = some (headerRead h files i) :=
      fun i hi => dictGet_map_pair (headerRead h files) sched i (hp.symm.subset hi)
    rw [List.map_congr_left hpt]
    have := map_range_getD (fun s => some (h s)) "" files
    simpa [headerRead] using this
  exact ⟨(key sched₁ h₁).trans (key sched₂ h₂).symm, key sched₁ h₁⟩

/-- Witness for C7: three files, two different completion orders. -/
theorem pool_extraction_deterministic_c7_witness :
    poolMapByPath String.length ["aa", "b", "ccc"] [2, 0, 1]
        = poolMapByPath String.length ["aa", "b", "ccc"] [1, 2, 0] ∧
      poolMapByPath String.length ["aa", "b", "ccc"] [2, 0, 1]
        = ["aa", "b", "ccc"].map (fun f => some (String.length f)) :=
  pool_extraction_deterministic_c7 String.length ["aa", "b", "ccc"]
    [2, 0, 1] [1, 2, 0] (by decide) (by decide)

theorem dimonWaitRemoveLoop_succ (n : Nat) :
    dimonWaitRemoveLoop (n + 1)
      = dimonWaitRemoveLoop n ++ [DimonEvent.wait n, DimonEvent.removeTempDir n] := by
  unfold dimonWaitRemoveLoop
  rw [List.range_succ, List.flatMap_append]
  rfl

theorem dimonWaitRemoveLoop_remove (n : Nat) :
    ∀ (j e : Nat), (dimonWaitRemoveLoop n)[j]? = some (DimonEvent.removeTempDir e) →
      ∃ i : Nat, i < j ∧ (dimonWaitRemoveLoop n)[i]? = some (DimonEvent.wait e) := by
  induction n with
  | zero => intro j e h; simp [dimonWaitRemoveLoop] at h
  | succ n ih =>
    intro j e h
    rw [dimonWaitRemoveLoop_succ, List.getElem?_append] at h
    by_cases hj : j < (dimonWaitRemoveLoop n).length
    · rw [if_pos hj] at h
      obtain ⟨i, hij, hi⟩ := ih j e h
      refine ⟨i, hij, ?_⟩
      rw [dimonWaitRemoveLoop_succ, List.getElem?_append, if_pos (lt_trans hij hj)]
      exact hi
    · rw [if_neg hj] at h
      rcases hd : j - (dimonWaitRemoveLoop n).length with _ | d
      · rw [hd] at h
        simp at h
      · rcases d with _ | d
        · rw [hd] at h
          simp at h
          refine ⟨(dimonWaitRemoveLoop n).length, by omega, ?_⟩
          rw [dimonWaitRemoveLoop_succ, List.getElem?_append_right (le_refl _)]
          simp [h]
        · rw [hd] at h
          simp at h

/-- C9: in the orchestrator's step sequence, every removal of an echo's
temporary working directory is preceded by the wait (`communicate`) on that
same echo's reconstruction subprocess. -/
theorem temp_dir_removed_after_wait_c9 (echoes : Nat) :
    ∀ (j e : Nat), (dimonTrace echoes)[j]? = some (DimonEvent.removeTempDir e) →
      ∃ i : Nat, i < j ∧ (dimonTrace echoes)[i]? = some (DimonEvent.wait e) := by
  intro j e h
  unfold dimonTrace at h ⊢
  rw [List.getElem?_append] at h
  by_cases hj : j < ((List.range echoes).map DimonEvent.dispatch).length
  · rw [if_pos hj] at h
    rw [List.getElem?_map] at h
    rcases hr : (List.range echoes)[j]? with _ | k
    · rw [hr] at h; cases h
    · rw [hr] at h; simp at h
  · rw [if_neg hj] at h
    obtain ⟨i, hij, hi⟩ := dimonWaitRemoveLoop_remove echoes _ e h
    refine ⟨((List.range echoes).map DimonEvent.dispatch).length + i, by omega, ?_⟩
    rw [List.getElem?_append_right (by omega)]
    simpa using hi

/-- Witness for C9: with two echoes, the removal of echo 0's temp directory
(step 3 of the trace) is preceded by the wait on echo 0. -/
theorem temp_dir_removed_after_wait_c9_witness :
    ∃ i : Nat, i < 3 ∧ (dimonTrace 2)[i]? = some (DimonEvent.wait 0) :=
  temp_dir_removed_after_wait_c9 2 3 0 (by decide)

theorem takeWhile_append_all {p : Char → Bool} :
    ∀ (ds : List Char) (c : Char) (r : List Char),
      (∀ d ∈ ds, p d = true) → p c = false →
      ((ds ++ c :: r).takeWhile p = ds ∧ (ds ++ c :: r).dropWhile p = c :: r) := by
  intro ds
  induction ds with
  | nil =>
    intro c r _ hc
    constructor
    · simp [List.takeWhile_cons, hc]
    · simp [List.dropWhile_cons, hc]
  | cons d ds ih =>
    intro c r hds hc
    have hd : p d = true := hds d (List.mem_cons_self d ds)
    obtain ⟨ht, hdr⟩ := ih c r (fun x hx => hds x (List.mem_cons_of_mem d hx)) hc
    constructor
    · simp [List.takeWhile_cons, hd, ht]
    · simp [List.dropWhile_cons, hd, hdr]

theorem parseAfterDash_isSome_iff (tail : List Char) :
    ((parseAfterDash tail).isSome = true ↔ TailPattern tail) := by
  unfold parseAfterDash
  split
  case isTrue hC =>
    refine iff_of_true rfl ?_
    obtain ⟨hds, hdash, hal, hdot, hext⟩ := hC
    rcases hr2 : tail.dropWhile isDigitChar with _ | ⟨c, t⟩
    · rw [hr2] at hdash; cases hdash
    · rw [hr2] at hdash hal hdot hext
      have hc : c = '-' := by simpa using hdash
      simp only [List.drop_succ_cons, List.drop_zero] at hal hdot hext
      rcases hr4 : t.dropWhile isAlnumChar with _ | ⟨c2, u⟩
      · rw [hr4] at hdot; cases hdot
      · rw [hr4] at hdot hext
        have hc2 : c2 = '.' := by simpa using hdot
        simp only [List.drop_succ_cons, List.drop_zero] at hext
        have e1 : tail = tail.takeWhile isDigitChar ++ tail.dropWhile isDigitChar :=
          (List.takeWhile_append_dropWhile _ _).symm
        rw [hr2, hc] at e1
        have e2 : t = t.takeWhile isAlnumChar ++ t.dropWhile isAlnumChar :=
          (List.takeWhile_append_dropWhile _ _).symm
        rw [hr4, hc2] at e2
        rw [e2] at e1
        exact ⟨tail.takeWhile isDigitChar, t.takeWhile isAlnumChar, u, e1, hds,
          fun x hx => List.mem_takeWhile_imp hx, hal,
          fun x hx => List.mem_takeWhile_imp hx, hext⟩
  case isFalse hC =>
    refine iff_of_false (by simp) ?_
    rintro ⟨ds, al, ext, heq, hds, hdsdig, hal, halal, hext⟩
    apply hC
    subst heq
    obtain ⟨ht1, hd1⟩ := takeWhile_append_all ds '-' (al ++ '.' :: ext) hdsdig (by decide)
    obtain ⟨ht2, hd2⟩ := takeWhile_append_all al '.' ext halal (by decide)
    refine ⟨by rw [ht1]; exact hds, by rw [hd1]; rfl, ?_, ?_, ?_⟩
    · rw [hd1]
      simp only [List.drop_succ_cons, List.drop_zero]
      rw [ht2]
      exact hal
    · rw [hd1]
      simp only [List.drop_succ_cons, List.drop_zero]
      rw [hd2]
      rfl
    · rw [hd1]
      simp only [List.drop_succ_cons, List.drop_zero]
      rw [hd2]
      simpa using hext

theorem fileNumberMatch_isSome_iff :
    ∀ cs : List Char, ((fileNumberMatch cs).isSome = true ↔ DcmNamePattern cs) := by
  intro cs
  induction cs with
  | nil =>
    refine iff_of_false (by simp [fileNumberMatch]) ?_
    rintro ⟨pre, tail, heq, -, -⟩
    exact absurd heq (by simp)
  | cons c rest ih =>
    rw [fileNumberMatch]
    by_cases hc : c = '\n'
    · rw [if_pos hc]
      refine iff_of_false (by simp) ?_
      rintro ⟨pre, tail, heq, hpre, ht⟩
      rcases pre with _ | ⟨p, pre'⟩
      · simp only [List.nil_append] at heq
        injection heq with h1 _
        rw [hc] at h1
        exact absurd h1 (by decide)
      · rw [List.cons_append] at heq
        injection heq with h1 _
        exact hpre p (List.mem_cons_self p pre') (h1 ▸ hc)
    · rw [if_neg hc, Option.isSome_or, Bool.or_eq_true]
      constructor
      · rintro (h | h)
        · obtain ⟨pre, tail, heq, hpre, ht⟩ := ih.mp h
          refine ⟨c :: pre, tail, by rw [List.cons_append, heq], ?_, ht⟩
          intro x hx
          rcases List.mem_cons.mp hx with rfl | hx'
          · exact hc
          · exact hpre x hx'
        · by_cases hdash : c = '-'
          · rw [if_pos hdash] at h
            exact ⟨[], rest, by rw [hdash, List.nil_append], by simp,
              (parseAfterDash_isSome_iff rest).mp h⟩
          · rw [if_neg hdash] at h
            simp at h
      · rintro ⟨pre, tail, heq, hpre, ht⟩
        rcases pre with _ | ⟨p, pre'⟩
        · simp only [List.nil_append] at heq
          injection heq with h1 h2
          right
          rw [if_pos h1, h2]
          exact (parseAfterDash_isSome_iff tail).mpr ht
        · rw [List.cons_append] at heq
          injection heq with h1 h2
          left
          exact ih.mpr ⟨pre', tail, h2,
            fun x hx => hpre x (List.mem_cons_of_mem p hx), ht⟩

theorem mapOpt_isSome_iff {α β : Type} {f : α → Option β} (l : List α) :
    ((mapOpt f l).isSome = true ↔ ∀ a ∈ l, (f a).isSome = true) := by
  constructor
  · intro h a ha
    cases hfa : f a with
    | none =>
      have : mapOpt f l = none := (mapOpt_eq_none_iff l).mpr ⟨a, ha, hfa⟩
      rw [this] at h
      cases h
    | some b => rfl
  · intro h
    cases hml : mapOpt f l with
    | none =>
      obtain ⟨a, ha, hfa⟩ := (mapOpt_eq_none_iff l).mp hml
      have := h a ha
      rw [hfa] at this
      cases this
    | some out => rfl

theorem addFileToMapping_mem_files (m : List (Nat × List String)) (idx : Nat)
    (g f : String) :
    ((∃ kv ∈ addFileToMapping m idx g, f ∈ kv.2) ↔ (∃ kv ∈ m, f ∈ kv.2) ∨ f = g) := by
  unfold addFileToMapping
  split
  case isTrue hs =>
    constructor
    · rintro ⟨kv', hkv', hf⟩
      obtain ⟨kv, hkv, rfl⟩ := List.mem_map.mp hkv'
      by_cases hk : kv.1 = idx
      · rw [if_pos hk] at hf
        rcases List.mem_append.mp hf with hin | hin
        · exact Or.inl ⟨kv, hkv, hin⟩
        · exact Or.inr (by simpa using hin)
      · rw [if_neg hk] at hf
        exact Or.inl ⟨kv, hkv, hf⟩
    · rintro (⟨kv, hkv, hf⟩ | rfl)
      · refine ⟨if kv.1 = idx then (kv.1, kv.2 ++ [g]) else kv,
          List.mem_map.mpr ⟨kv, hkv, rfl⟩, ?_⟩
        by_cases hk : kv.1 = idx
        · rw [if_pos hk]
          exact List.mem_append.mpr (Or.inl hf)
        · rw [if_neg hk]
          exact hf
      · obtain ⟨fs, hfs⟩ := Option.isSome_iff_exists.mp hs
        refine ⟨(idx, fs ++ [f]), ?_, by simp⟩
        refine List.mem_map.mpr ⟨(idx, fs), dictGet_eq_some_mem hfs, ?_⟩
        rw [if_pos rfl]
  case isFalse hs =>
    constructor
    · rintro ⟨kv, hkv, hf⟩
      rcases List.mem_append.mp hkv with hin | hin
      · exact Or.inl ⟨kv, hin, hf⟩
      · simp only [List.mem_singleton] at hin
        subst hin
        exact Or.inr (by simpa using hf)
    · rintro (⟨kv, hkv, hf⟩ | rfl)
      · exact ⟨kv, List.mem_append.mpr (Or.inl hkv), hf⟩
      · exact ⟨(idx, [f]), List.mem_append.mpr (Or.inr (by simp)), by simp⟩

theorem buildIndexMapping_mem_aux (h : String → Nat) :
    ∀ (files : List String) (m₀ : List (Nat × List String)) (f : String),
      ((∃ kv ∈ files.foldl (fun m x => addFileToMapping m (h x) x) m₀, f ∈ kv.2)
        ↔ (∃ kv ∈ m₀, f ∈ kv.2) ∨ f ∈ files) := by
  intro files
  induction files with
  | nil =>
    intro m₀ f
    simp
  | cons a files ih =>
    intro m₀ f
    rw [List.foldl_cons, ih, addFileToMapping_mem_files, List.mem_cons]
    exact or_assoc

theorem buildIndexMapping_mem_files (h : String → Nat) (files : List String)
    (f : String) :
    ((∃ kv ∈ buildIndexMapping files h, f ∈ kv.2) ↔ f ∈ files) := by
  unfold buildIndexMapping
  rw [buildIndexMapping_mem_aux]
  simp

theorem sortByFileNumber_isSome_iff (files : List String) :
    ((sortByFileNumber files).isSome = true
      ↔ ∀ f ∈ files, (fileNumberKey f).isSome = true) := by
  unfold sortByFileNumber
  rw [Option.isSome_map', mapOpt_isSome_iff]
  constructor
  · intro h f hf
    have := h f hf
    rwa [Option.isSome_map'] at this
  · intro h f hf
    rw [Option.isSome_map']
    exact h f hf

/-- C10: the ordering step requires every DICOM file name to be of the shape
`<prefix>-<digits>-<alphanumerics>.dcm` (extension case-insensitive, prefix
free of newlines, as `.*` matches).  Under that precondition the file-number
sort key is defined for every file and the per-index sorting succeeds; if any
file name does not match, the sorting step raises (`AttributeError` on
`.group(1)` of a failed match) and the pipeline never produces manifests. -/
theorem filename_pattern_required_c10 (files : List String) (h : String → Nat) :
    ((∀ f ∈ files, DcmNamePattern f.data) →
        (sortIndexMapping (buildIndexMapping files h)).isSome = true)
      ∧ ((∃ f ∈ files, ¬ DcmNamePattern f.data) →
          sortIndexMapping (buildIndexMapping files h) = none
            ∧ ∀ (echoes : Nat) (ms : List String),
                concatenateScanCore files h echoes ≠ Except.ok ms) := by
  constructor
  · intro hall
    unfold sortIndexMapping
    rw [mapOpt_isSome_iff]
    intro kv hkv
    rw [Option.isSome_map', sortByFileNumber_isSome_iff]
    intro f hf
    have hmem : f ∈ files := (buildIndexMapping_mem_files h files f).mp ⟨kv, hkv, hf⟩
    exact (fileNumberMatch_isSome_iff f.data).mpr (hall f hmem)
  · rintro ⟨f, hf, hbad⟩
    have hkey : fileNumberKey f = none := by
      cases hk : fileNumberKey f with
      | none => rfl
      | some n =>
        exfalso
        apply hbad
        apply (fileNumberMatch_isSome_iff f.data).mp
        unfold fileNumberKey at hk
        rw [hk]
        rfl
    have hnone : sortIndexMapping (buildIndexMapping files h) = none := by
      obtain ⟨kv, hkv, hfkv⟩ := (buildIndexMapping_mem_files h files f).mpr hf
      apply (mapOpt_eq_none_iff _).mpr
      refine ⟨kv, hkv, ?_⟩
      have hsort : sortByFileNumber kv.2 = none := by
        unfold sortByFileNumber
        have hmo : mapOpt (fun x => (fileNumberKey x).map (fun n => (n, x))) kv.2
            = none := (mapOpt_eq_none_iff _).mpr ⟨f, hfkv, by rw [hkey]; rfl⟩
        rw [hmo]
        rfl
      rw [hsort]
      rfl
    refine ⟨hnone, ?_⟩
    intro echoes ms
    unfold concatenateScanCore
    by_cases he : echoes = 0
    · rw [if_pos he]
      intro hco
      cases hco
    · rw [if_neg he]
      by_cases hd : files.length % echoes ≠ 0
      · rw [if_pos hd]
        intro hco
        cases hco
      · rw [if_neg hd, hnone]
        intro hco
        cases hco

/-- Witness for C10: two well-formed filenames make the sorting step
succeed. -/
theorem filename_pattern_required_c10_witness :
    (sortIndexMapping (buildIndexMapping ["s-1-a.dcm", "s-2-b.DCM"]
      (fun _ => 5))).isSome = true :=
  (filename_pattern_required_c10 ["s-1-a.dcm", "s-2-b.DCM"] (fun _ => 5)).1
    (by
      intro f hf
      fin_cases hf <;> exact (fileNumberMatch_isSome_iff _).mp (by decide))

theorem sliceIndicesSorted_perm (m : List (Nat × List String)) :
    (sliceIndicesSorted m).Perm (m.map Prod.fst) :=
  List.perm_insertionSort _ _

theorem sliceIndicesSorted_length (m : List (Nat × List String)) :
    (sliceIndicesSorted m).length = m.length := by
  rw [(sliceIndicesSorted_perm m).length_eq, List.length_map]

theorem sliceIndicesSorted_sorted (m : List (Nat × List String)) :
    List.Sorted (fun a b => a ≤ b) (sliceIndicesSorted m) :=
  List.sorted_insertionSort _ _

theorem echoes_mul_nSpatial_le (m : List (Nat × List String)) (echoes : Nat) :
    echoes * nSpatialSlices m echoes ≤ m.length := by
  unfold nSpatialSlices
  rw [Nat.mul_comm]
  exact Nat.div_mul_le_self _ _

theorem blockIdx_lt (m : List (Nat × List String)) {echoes e x : Nat}
    (he : e < echoes) (hx : x < nSpatialSlices m echoes) :
    e * nSpatialSlices m echoes + x < (sliceIndicesSorted m).length := by
  rw [sliceIndicesSorted_length]
  calc e * nSpatialSlices m echoes + x
      < (e + 1) * nSpatialSlices m echoes := by rw [Nat.succ_mul]; omega
    _ ≤ echoes * nSpatialSlices m echoes := mul_le_mul_right' he _
    _ ≤ m.length := echoes_mul_nSpatial_le m echoes

theorem sliceIndicesByEcho_getElem (m : List (Nat × List String))
    {echoes e x : Nat} (he : e < echoes) (hx : x < nSpatialSlices m echoes) :
    (sliceIndicesByEcho m echoes e)[x]?
      = some ((sliceIndicesSorted m).getD
          (e * nSpatialSlices m echoes + x) 0) := by
  unfold sliceIndicesByEcho
  rw [List.getElem?_take, if_pos hx, List.getElem?_drop]
  have hb := blockIdx_lt m he hx
  rw [List.getElem?_eq_getElem hb, List.getD_eq_getElem _ _ hb]

theorem dictGet_sorted_isSome (m : List (Nat × List String)) {j : Nat}
    (hj : j < (sliceIndicesSorted m).length) :
    (dictGet m ((sliceIndicesSorted m).getD j 0)).isSome = true := by
  apply (dictGet_isSome_iff m _).mpr
  have hmem : (sliceIndicesSorted m).getD j 0 ∈ sliceIndicesSorted m := by
    rw [List.getD_eq_getElem _ _ hj]
    exact List.getElem_mem hj
  exact (sliceIndicesSorted_perm m).subset hmem

theorem manifestCell_eq (m : List (Nat × List String)) {echoes e x : Nat}
    (t : Nat) (he : e < echoes) (hx : x < nSpatialSlices m echoes) :
    manifestCell m echoes e t x
      = ((dictGet m ((sliceIndicesSorted m).getD
          (e * nSpatialSlices m echoes + x) 0)).getD [])[t]? := by
  unfold manifestCell
  rw [sliceIndicesByEcho_getElem m he hx, Option.some_bind]
  cases hdg : dictGet m ((sliceIndicesSorted m).getD
      (e * nSpatialSlices m echoes + x) 0) with
  | none => rfl
  | some files => rfl

theorem buildManifests_ok (m : List (Nat × List String)) (echoes : Nat)
    (hech : echoes ≠ 0) (hn : nSpatialSlices m echoes ≠ 0)
    (hlen : ∀ kv ∈ m, nTimePoints m echoes ≤ kv.2.length) :
    ∃ rowss, mapOpt (fun e => echoRows m echoes e) (List.range echoes) = some rowss
      ∧ buildManifests m echoes = Except.ok (rowss.map manifestText)
      ∧ rowss.length = echoes
      ∧ ∀ e, e < echoes → ∃ rows, echoRows m echoes e = some rows
          ∧ rowss[e]? = some rows
          ∧ rows.length = nTimePoints m echoes
          ∧ ∀ t, t < nTimePoints m echoes → ∃ row, rows[t]? = some row
              ∧ row.length = nSpatialSlices m echoes
              ∧ ∀ x, x < nSpatialSlices m echoes →
                  row[x]? = ((dictGet m ((sliceIndicesSorted m).getD
                    (e * nSpatialSlices m echoes + x) 0)).getD [])[t]? := by
  have hfile : ∀ j, j < (sliceIndicesSorted m).length →
      ∃ files, dictGet m ((sliceIndicesSorted m).getD j 0) = some files
        ∧ nTimePoints m echoes ≤ files.length := by
    intro j hj
    obtain ⟨files, hfiles⟩ :=
      Option.isSome_iff_exists.mp (dictGet_sorted_isSome m hj)
    exact ⟨files, hfiles, hlen _ (dictGet_eq_some_mem hfiles)⟩
  have hcell : ∀ e t x, e < echoes → t < nTimePoints m echoes →
      x < nSpatialSlices m echoes →
      (manifestCell m echoes e t x).isSome = true := by
    intro e t x he ht hx
    rw [manifestCell_eq m t he hx]
    obtain ⟨files, hf, hT⟩ := hfile _ (blockIdx_lt m he hx)
    rw [hf, Option.getD_some, List.getElem?_eq_getElem (lt_of_lt_of_le ht hT)]
    rfl
  have hrow : ∀ e t, e < echoes → t < nTimePoints m echoes →
      ∃ row, mapOpt (fun x => manifestCell m echoes e t x)
          (List.range (nSpatialSlices m echoes)) = some row
        ∧ row.length = nSpatialSlices m echoes
        ∧ ∀ x, x < nSpatialSlices m echoes →
            row[x]? = ((dictGet m ((sliceIndicesSorted m).getD
              (e * nSpatialSlices m echoes + x) 0)).getD [])[t]? := by
    intro e t he ht
    obtain ⟨row, hmo, hrl, hget⟩ := mapOpt_eq_some_of_forall
      (List.range (nSpatialSlices m echoes))
      (fun x hx => hcell e t x he ht (List.mem_range.mp hx))
    refine ⟨row, hmo, by rw [hrl, List.length_range], ?_⟩
    intro x hx
    rw [hget x, List.getElem?_range hx, Option.some_bind,
      manifestCell_eq m t he hx]
  have hrows : ∀ e, e < echoes →
      ∃ rows, echoRows m echoes e = some rows
        ∧ rows.length = nTimePoints m echoes
        ∧ ∀ t, t < nTimePoints m echoes → ∃ row, rows[t]? = some row
            ∧ row.length = nSpatialSlices m echoes
            ∧ ∀ x, x < nSpatialSlices m echoes →
                row[x]? = ((dictGet m ((sliceIndicesSorted m).getD
                  (e * nSpatialSlices m echoes + x) 0)).getD [])[t]? := by
    intro e he
    have hall : ∀ t ∈ List.range (nTimePoints m echoes),
        ((fun t => mapOpt (fun x => manifestCell m echoes e t x)
          (List.range (nSpatialSlices m echoes))) t).isSome = true := by
      intro t ht
      obtain ⟨row, hmo, -, -⟩ := hrow e t he (List.mem_range.mp ht)
      simp only [hmo, Option.isSome_some]
    obtain ⟨rows, hmo, hrl, hget⟩ := mapOpt_eq_some_of_forall _ hall
    refine ⟨rows, hmo, by rw [hrl, List.length_range], ?_⟩
    intro t ht
    obtain ⟨row, hmo', hrowlen, hrowget⟩ := hrow e t he ht
    refine ⟨row, ?_, hrowlen, hrowget⟩
    rw [hget t, List.getElem?_range ht, Option.some_bind, hmo']
  have htopall : ∀ e ∈ List.range echoes,
      ((fun e => echoRows m echoes e) e).isSome = true := by
    intro e he
    obtain ⟨rows, hmo, -, -⟩ := hrows e (List.mem_range.mp he)
    simp only [hmo, Option.isSome_some]
  obtain ⟨rowss, htop, htl, htget⟩ := mapOpt_eq_some_of_forall _ htopall
  refine ⟨rowss, htop, ?_, by rw [htl, List.length_range], ?_⟩
  · unfold buildManifests
    rw [if_neg hech, if_neg hn, htop]
  · intro e he
    obtain ⟨rows, hmo, hrl, hdetail⟩ := hrows e he
    refine ⟨rows, hmo, ?_, hrl, hdetail⟩
    rw [htget e, List.getElem?_range he, Option.some_bind, hmo]

/-- C1: under the geometry preconditions (distinct-index count divisible by
the echo count, every index holding at least `timepointCount` files, at least
one index per echo), the built per-echo manifest has exactly
`nTimePoints` lines; line `t` is the space-separated list of
`nSpatialSlices` paths; the path in row `t`, column `x` is
`IndexMapping[block[x]][t]` where `block` is echo `e`'s contiguous block of
the ascending-sorted distinct slice indices; and the columns are in strictly
ascending slice-index (spatial-position) order. -/
theorem manifest_contract_c1 (m : List (Nat × List String)) (echoes e : Nat)
    (hnd : (m.map Prod.fst).Nodup) (hech : 0 < echoes) (hm : 0 < m.length)
    (hdiv : m.length % echoes = 0)
    (hlen : ∀ kv ∈ m, nTimePoints m echoes ≤ kv.2.length)
    (he : e < echoes) :
    ∃ ms rows, buildManifests m echoes = Except.ok ms
      ∧ ms.length = echoes
      ∧ ms[e]? = some (manifestText rows)
      ∧ rows.length = nTimePoints m echoes
      ∧ (∀ t, t < nTimePoints m echoes → ∃ row, rows[t]? = some row
          ∧ row.length = nSpatialSlices m echoes
          ∧ ∀ x, x < nSpatialSlices m echoes →
              row[x]? = ((dictGet m ((sliceIndicesSorted m).getD
                (e * nSpatialSlices m echoes + x) 0)).getD [])[t]?)
      ∧ List.Sorted (fun a b => a < b) (sliceIndicesByEcho m echoes e) := by
  have hn : nSpatialSlices m echoes ≠ 0 := by
    unfold nSpatialSlices
    have hdvd : echoes ∣ m.length := Nat.dvd_of_mod_eq_zero hdiv
    exact Nat.pos_iff_ne_zero.mp (Nat.div_pos (Nat.le_of_dvd hm hdvd) hech)
  obtain ⟨rowss, htop, hbm, hlenr, hdetail⟩ :=
    buildManifests_ok m echoes (Nat.pos_iff_ne_zero.mp hech) hn hlen
  obtain ⟨rows, hrows, hre, hrl, hrows_detail⟩ := hdetail e he
  refine ⟨rowss.map manifestText, rows, hbm, by rw [List.length_map, hlenr],
    ?_, hrl, hrows_detail, ?_⟩
  · rw [List.getElem?_map, hre]
    rfl
  · have hsorted : List.Sorted (fun a b => a < b) (sliceIndicesSorted m) :=
      List.Sorted.lt_of_le (sliceIndicesSorted_sorted m)
        (((sliceIndicesSorted_perm m).nodup_iff).mpr hnd)
    unfold sliceIndicesByEcho
    exact List.Pairwise.sublist
      ((List.take_sublist _ _).trans (List.drop_sublist _ _)) hsorted

/-- Witness for C1: two echoes, two spatial slices per echo, two
timepoints. -/
theorem manifest_contract_c1_witness :
    ∃ ms rows, buildManifests [(10, ["a", "b"]), (11, ["c", "d"]),
        (20, ["e", "f"]), (21, ["g", "h"])] 2 = Except.ok ms
      ∧ ms.length = 2
      ∧ ms[0]? = some (manifestText rows)
      ∧ rows.length = nTimePoints [(10, ["a", "b"]), (11, ["c", "d"]),
          (20, ["e", "f"]), (21, ["g", "h"])] 2
      ∧ (∀ t, t < nTimePoints [(10, ["a", "b"]), (11, ["c", "d"]),
            (20, ["e", "f"]), (21, ["g", "h"])] 2 →
          ∃ row, rows[t]? = some row
            ∧ row.length = nSpatialSlices [(10, ["a", "b"]), (11, ["c", "d"]),
                (20, ["e", "f"]), (21, ["g", "h"])] 2
            ∧ ∀ x, x < nSpatialSlices [(10, ["a", "b"]), (11, ["c", "d"]),
                (20, ["e", "f"]), (21, ["g", "h"])] 2 →
                row[x]? = ((dictGet [(10, ["a", "b"]), (11, ["c", "d"]),
                  (20, ["e", "f"]), (21, ["g", "h"])]
                  ((sliceIndicesSorted [(10, ["a", "b"]), (11, ["c", "d"]),
                    (20, ["e", "f"]), (21, ["g", "h"])]).getD
                    (0 * nSpatialSlices [(10, ["a", "b"]), (11, ["c", "d"]),
                      (20, ["e", "f"]), (21, ["g", "h"])] 2 + x) 0)).getD [])[t]?)
      ∧ List.Sorted (fun a b => a < b)
          (sliceIndicesByEcho [(10, ["a", "b"]), (11, ["c", "d"]),
            (20, ["e", "f"]), (21, ["g", "h"])] 2 0) :=
  manifest_contract_c1 [(10, ["a", "b"]), (11, ["c", "d"]),
      (20, ["e", "f"]), (21, ["g", "h"])] 2 0
    (by decide) (by decide) (by decide) (by decide) (by decide) (by decide)

/-- Counterexample for C3: seven distinct slice indices with three declared
echoes (7 % 3 ≠ 0, nine files so the line-390 total check would pass), yet
the builder returns manifests with no error: the seventh index is silently
dropped. -/
theorem distinct_divisibility_c3_counterexample :
    ([(1, ["a", "b", "c"]), (2, ["d"]), (3, ["e"]), (4, ["f"]), (5, ["g"]),
        (6, ["h"]), (7, ["i"])] : List (Nat × List String)).length % 3 ≠ 0
      ∧ ∃ ms, buildManifests [(1, ["a", "b", "c"]), (2, ["d"]), (3, ["e"]),
          (4, ["f"]), (5, ["g"]), (6, ["h"]), (7, ["i"])] 3 = Except.ok ms := by
  exact ⟨by decide, ⟨["a d", "e f", "g h"], by rfl⟩⟩

/-- C3 (amended): when the distinct-index count is not divisible by the echo
count, geometry resolution raises no error: `nSpatialSlices` is
floor-truncated, the builder proceeds (succeeding whenever every index holds
at least `nTimePoints` files), and the trailing
`m.length - echoes * nSpatialSlices` sorted indices are silently left out of
every manifest. -/
theorem distinct_divisibility_c3_amended (m : List (Nat × List String))
    (echoes : Nat) (hech : 0 < echoes) (hech_le : echoes ≤ m.length)
    (hndiv : m.length % echoes ≠ 0)
    (hlen : ∀ kv ∈ m, nTimePoints m echoes ≤ kv.2.length) :
    (∃ ms, buildManifests m echoes = Except.ok ms ∧ ms.length = echoes)
      ∧ echoes * nSpatialSlices m echoes < m.length := by
  have hn : nSpatialSlices m echoes ≠ 0 :=
    Nat.pos_iff_ne_zero.mp (Nat.div_pos hech_le hech)
  obtain ⟨rowss, htop, hbm, hlenr, -⟩ :=
    buildManifests_ok m echoes (Nat.pos_iff_ne_zero.mp hech) hn hlen
  refine ⟨⟨rowss.map manifestText, hbm, by rw [List.length_map, hlenr]⟩, ?_⟩
  rcases Nat.lt_or_ge (echoes * nSpatialSlices m echoes) m.length with hlt | hge
  · exact hlt
  · exfalso
    apply hndiv
    rw [← le_antisymm (echoes_mul_nSpatial_le m echoes) hge, Nat.mul_mod_right]

/-- Witness for C3's amended statement at the counterexample mapping. -/
theorem distinct_divisibility_c3_amended_witness :
    (∃ ms, buildManifests [(1, ["a", "b", "c"]), (2, ["d"]), (3, ["e"]),
          (4, ["f"]), (5, ["g"]), (6, ["h"]), (7, ["i"])] 3 = Except.ok ms
        ∧ ms.length = 3)
      ∧ 3 * nSpatialSlices [(1, ["a", "b", "c"]), (2, ["d"]), (3, ["e"]),
          (4, ["f"]), (5, ["g"]), (6, ["h"]), (7, ["i"])] 3
        < ([(1, ["a", "b", "c"]), (2, ["d"]), (3, ["e"]), (4, ["f"]),
            (5, ["g"]), (6, ["h"]), (7, ["i"])] : List (Nat × List String)).length :=
  distinct_divisibility_c3_amended [(1, ["a", "b", "c"]), (2, ["d"]), (3, ["e"]),
      (4, ["f"]), (5, ["g"]), (6, ["h"]), (7, ["i"])] 3
    (by decide) (by decide) (by decide) (by decide)

/-- Counterexample for C4: indices 1 and 2 hold four files each while
`nTimePoints = 3` (indices 3 and 4 hold three), yet the builder returns
manifests with no error: the fourth files of indices 1 and 2 are silently
dropped. -/
theorem slice_repeats_c4_counterexample :
    (∃ kv ∈ ([(1, ["a", "b", "c", "d"]), (2, ["e", "f", "g", "h"]),
        (3, ["i", "j", "k"]), (4, ["l", "m", "n"])] : List (Nat × List String)),
      kv.2.length ≠ nTimePoints [(1, ["a", "b", "c", "d"]),
        (2, ["e", "f", "g", "h"]), (3, ["i", "j", "k"]), (4, ["l", "m", "n"])] 2)
      ∧ ∃ ms, buildManifests [(1, ["a", "b", "c", "d"]), (2, ["e", "f", "g", "h"]),
          (3, ["i", "j", "k"]), (4, ["l", "m", "n"])] 2 = Except.ok ms := by
  exact ⟨by decide, ⟨["a e\nb f\nc g", "i l\nj m\nk n"], by rfl⟩⟩

/-- C4 (amended): the builder raises (a plain `IndexError` from list
indexing, not a dedicated geometry error) exactly when some index used in
the echo blocks holds fewer than `nTimePoints` files; in that case no
manifest is produced.  Indices holding more than `nTimePoints` files are
silently truncated (see the counterexample). -/
theorem slice_repeats_c4_amended (m : List (Nat × List String)) (echoes : Nat)
    (hech : echoes ≠ 0) (hn : nSpatialSlices m echoes ≠ 0)
    (hshort : ∃ e, e < echoes ∧ ∃ x, x < nSpatialSlices m echoes ∧
        ((dictGet m ((sliceIndicesSorted m).getD
          (e * nSpatialSlices m echoes + x) 0)).getD []).length
          < nTimePoints m echoes) :
    buildManifests m echoes = Except.error PyErr.indexError := by
  obtain ⟨e, he, x, hx, hshort'⟩ := hshort
  have hcellnone : manifestCell m echoes e
      (((dictGet m ((sliceIndicesSorted m).getD
        (e * nSpatialSlices m echoes + x) 0)).getD []).length) x = none := by
    rw [manifestCell_eq m _ he hx]
    exact List.getElem?_eq_none (le_refl _)
  have hrownone : mapOpt (fun x' => manifestCell m echoes e
      (((dictGet m ((sliceIndicesSorted m).getD
        (e * nSpatialSlices m echoes + x) 0)).getD []).length) x')
      (List.range (nSpatialSlices m echoes)) = none :=
    (mapOpt_eq_none_iff _).mpr ⟨x, List.mem_range.mpr hx, hcellnone⟩
  have hechonone : echoRows m echoes e = none := by
    unfold echoRows
    exact (mapOpt_eq_none_iff _).mpr
      ⟨_, List.mem_range.mpr hshort', hrownone⟩
  have htopnone : mapOpt (fun e' => echoRows m echoes e')
      (List.range echoes) = none :=
    (mapOpt_eq_none_iff _).mpr ⟨e, List.mem_range.mpr he, hechonone⟩
  unfold buildManifests
  rw [if_neg hech, if_neg hn, htopnone]

/-- Witness for C4's amended statement: index 2 holds only one file while
`nTimePoints = 2`, so the builder raises. -/
theorem slice_repeats_c4_amended_witness :
    buildManifests [(1, ["a", "b", "c"]), (2, ["d"])] 2
      = Except.error PyErr.indexError :=
  slice_repeats_c4_amended [(1, ["a", "b", "c"]), (2, ["d"])] 2
    (by decide) (by decide)
    ⟨1, by decide, 0, by decide, by decide⟩

/-- C5: under the geometry preconditions and with pairwise-distinct file
paths, every in-range (echo, timepoint, spatialPosition) coordinate of the
built ordering holds a file, and the coordinate → file map is injective, so
coordinates are recoverable from the manifest layout (bijection onto the
placed files). -/
theorem ordering_bijective_c5 (m : List (Nat × List String)) (echoes : Nat)
    (hnd : (m.map Prod.fst).Nodup)
    (hfiles : (m.map Prod.snd).flatten.Nodup)
    (hech : 0 < echoes) (hm : 0 < m.length)
    (hdiv : m.length % echoes = 0)
    (hlen : ∀ kv ∈ m, nTimePoints m echoes ≤ kv.2.length) :
    (∀ e t x, e < echoes → t < nTimePoints m echoes →
        x < nSpatialSlices m echoes → (placedFile m echoes e t x).isSome = true)
      ∧ ∀ e t x e' t' x', e < echoes → t < nTimePoints m echoes →
          x < nSpatialSlices m echoes → e' < echoes →
          t' < nTimePoints m echoes → x' < nSpatialSlices m echoes →
          placedFile m echoes e t x = placedFile m echoes e' t' x' →
          e = e' ∧ t = t' ∧ x = x' := by
  have hn : nSpatialSlices m echoes ≠ 0 := by
    unfold nSpatialSlices
    have hdvd : echoes ∣ m.length := Nat.dvd_of_mod_eq_zero hdiv
    exact Nat.pos_iff_ne_zero.mp
      (Nat.div_pos (Nat.le_of_dvd hm hdvd) hech)
  obtain ⟨rowss, htop, hbm, hlenr, hdetail⟩ :=
    buildManifests_ok m echoes (Nat.pos_iff_ne_zero.mp hech) hn hlen
  have hplaced : ∀ e t x, e < echoes → t < nTimePoints m echoes →
      x < nSpatialSlices m echoes →
      placedFile m echoes e t x
        = ((dictGet m ((sliceIndicesSorted m).getD
            (e * nSpatialSlices m echoes + x) 0)).getD [])[t]? := by
    intro e t x he ht hx
    obtain ⟨rows, hrows, -, -, hrowdetail⟩ := hdetail e he
    obtain ⟨row, hrowt, -, hrowx⟩ := hrowdetail t ht
    unfold placedFile
    rw [hrows, Option.some_bind, hrowt, Option.some_bind, hrowx x hx]
  have hfile : ∀ j, j < (sliceIndicesSorted m).length →
      ∃ files, dictGet m ((sliceIndicesSorted m).getD j 0) = some files
        ∧ nTimePoints m echoes ≤ files.length := by
    intro j hj
    obtain ⟨files, hf⟩ :=
      Option.isSome_iff_exists.mp (dictGet_sorted_isSome m hj)
    exact ⟨files, hf, hlen _ (dictGet_eq_some_mem hf)⟩
  constructor
  · intro e t x he ht hx
    obtain ⟨files, hf, hT⟩ := hfile _ (blockIdx_lt m he hx)
    rw [hplaced e t x he ht hx, hf, Option.getD_some,
      List.getElem?_eq_getElem (lt_of_lt_of_le ht hT)]
    rfl
  · intro e t x e' t' x' he ht hx he' ht' hx' hEq
    have hb : e * nSpatialSlices m echoes + x
        < (sliceIndicesSorted m).length := blockIdx_lt m he hx
    have hb' : e' * nSpatialSlices m echoes + x'
        < (sliceIndicesSorted m).length := blockIdx_lt m he' hx'
    obtain ⟨files, hf, hT⟩ := hfile _ hb
    obtain ⟨files', hf', hT'⟩ := hfile _ hb'
    rw [hplaced e t x he ht hx, hplaced e' t' x' he' ht' hx', hf, hf',
      Option.getD_some, Option.getD_some] at hEq
    have htlt : t < files.length := lt_of_lt_of_le ht hT
    have ht'lt : t' < files'.length := lt_of_lt_of_le ht' hT'
    rw [List.getElem?_eq_getElem htlt, List.getElem?_eq_getElem ht'lt] at hEq
    injection hEq with hv
    have hjoin := List.nodup_flatten.mp hfiles
    by_cases hidx : (sliceIndicesSorted m).getD
        (e * nSpatialSlices m echoes + x) 0
        = (sliceIndicesSorted m).getD (e' * nSpatialSlices m echoes + x') 0
    · have hfeq : files = files' := by
        have h2 : some files = some files' := by rw [← hf, ← hf', hidx]
        injection h2
      subst hfeq
      have hnodf : files.Nodup := hjoin.1 files
        (List.mem_map.mpr ⟨_, dictGet_eq_some_mem hf, rfl⟩)
      have htt : t = t' := (List.Nodup.getElem_inj_iff hnodf).mp hv
      have hSnod : (sliceIndicesSorted m).Nodup :=
        ((sliceIndicesSorted_perm m).nodup_iff).mpr hnd
      have hpos : e * nSpatialSlices m echoes + x
          = e' * nSpatialSlices m echoes + x' := by
        rw [List.getD_eq_getElem _ _ hb, List.getD_eq_getElem _ _ hb'] at hidx
        exact (List.Nodup.getElem_inj_iff hSnod).mp hidx
      have hn0 : 0 < nSpatialSlices m echoes := Nat.pos_of_ne_zero hn
      have hdive : (e * nSpatialSlices m echoes + x) / nSpatialSlices m echoes
          = e := by
        rw [Nat.mul_comm, Nat.mul_add_div hn0, Nat.div_eq_of_lt hx,
          Nat.add_zero]
      have hdive' : (e' * nSpatialSlices m echoes + x') / nSpatialSlices m echoes
          = e' := by
        rw [Nat.mul_comm, Nat.mul_add_div hn0, Nat.div_eq_of_lt hx',
          Nat.add_zero]
      have hee : e = e' := by rw [← hdive, ← hdive', hpos]
      subst hee
      exact ⟨rfl, htt, by omega⟩
    · exfalso
      obtain ⟨i, hi, hmi⟩ := List.getElem_of_mem (dictGet_eq_some_mem hf)
      obtain ⟨j, hj, hmj⟩ := List.getElem_of_mem (dictGet_eq_some_mem hf')
      have hij : i ≠ j := by
        intro hij0
        apply hidx
        subst hij0
        have h3 := hmi.symm.trans hmj
        exact congrArg Prod.fst h3
      have hi' : i < (m.map Prod.snd).length := by
        rw [List.length_map]
        exact hi
      have hj' : j < (m.map Prod.snd).length := by
        rw [List.length_map]
        exact hj
      have hmapi : (m.map Prod.snd)[i] = files := by
        rw [List.getElem_map, hmi]
      have hmapj : (m.map Prod.snd)[j] = files' := by
        rw [List.getElem_map, hmj]
      have hdisj : ∀ p, p ∈ files → p ∈ files' → False := by
        rcases Nat.lt_or_ge i j with hlt | hge
        · have hd := (List.pairwise_iff_getElem.mp hjoin.2) i j hi' hj' hlt
          rw [hmapi, hmapj] at hd
          exact fun p hp hp' => hd hp hp'
        · have hlt' : j < i := by omega
          have hd := (List.pairwise_iff_getElem.mp hjoin.2) j i hj' hi' hlt'
          rw [hmapi, hmapj] at hd
          exact fun p hp hp' => hd hp' hp
      have hv1 : files[t] ∈ files := List.getElem_mem htlt
      rw [hv] at hv1
      exact hdisj _ hv1 (List.getElem_mem ht'lt)

/-- Witness for C5 at a concrete two-echo mapping with distinct paths: the
injectivity consequence instantiated. -/
theorem ordering_bijective_c5_witness :
    (∀ e t x, e < 2 → t < nTimePoints [(10, ["a", "b"]), (11, ["c", "d"]),
          (20, ["e", "f"]), (21, ["g", "h"])] 2 →
        x < nSpatialSlices [(10, ["a", "b"]), (11, ["c", "d"]),
          (20, ["e", "f"]), (21, ["g", "h"])] 2 →
        (placedFile [(10, ["a", "b"]), (11, ["c", "d"]),
          (20, ["e", "f"]), (21, ["g", "h"])] 2 e t x).isSome = true)
      ∧ ∀ e t x e' t' x', e < 2 →
          t < nTimePoints [(10, ["a", "b"]), (11, ["c", "d"]),
            (20, ["e", "f"]), (21, ["g", "h"])] 2 →
          x < nSpatialSlices [(10, ["a", "b"]), (11, ["c", "d"]),
            (20, ["e", "f"]), (21, ["g", "h"])] 2 →
          e' < 2 →
          t' < nTimePoints [(10, ["a", "b"]), (11, ["c", "d"]),
            (20, ["e", "f"]), (21, ["g", "h"])] 2 →
          x' < nSpatialSlices [(10, ["a", "b"]), (11, ["c", "d"]),
            (20, ["e", "f"]), (21, ["g", "h"])] 2 →
          placedFile [(10, ["a", "b"]), (11, ["c", "d"]),
            (20, ["e", "f"]), (21, ["g", "h"])] 2 e t x
            = placedFile [(10, ["a", "b"]), (11, ["c", "d"]),
              (20, ["e", "f"]), (21, ["g", "h"])] 2 e' t' x' →
          e = e' ∧ t = t' ∧ x = x' :=
  ordering_bijective_c5 [(10, ["a", "b"]), (11, ["c", "d"]),
      (20, ["e", "f"]), (21, ["g", "h"])] 2
    (by decide) (by decide) (by decide) (by decide) (by decide) (by decide)

/-- C8: the manifest builder is a pure function of the index mapping's
contents: two mappings holding the same index → files associations (in any
dict insertion order, with distinct indices) produce identical manifest
texts for every echo; in particular a second run over an unchanged mapping
is byte-identical. -/
theorem manifests_deterministic_c8 (m₁ m₂ : List (Nat × List String))
    (echoes : Nat) (hnd : (m₁.map Prod.fst).Nodup) (hperm : m₁.Perm m₂) :
    buildManifests m₁ echoes = buildManifests m₂ echoes := by
  have hlen : m₁.length = m₂.length := hperm.length_eq
  have hkeys : (m₁.map Prod.fst).Perm (m₂.map Prod.fst) := hperm.map _
  have hS : sliceIndicesSorted m₁ = sliceIndicesSorted m₂ :=
    List.eq_of_perm_of_sorted
      (((sliceIndicesSorted_perm m₁).trans hkeys).trans
        (sliceIndicesSorted_perm m₂).symm)
      (sliceIndicesSorted_sorted m₁) (sliceIndicesSorted_sorted m₂)
  have htot : nTotalSlices m₁ = nTotalSlices m₂ := by
    unfold nTotalSlices
    exact (hperm.map (fun kv => kv.2.length)).sum_eq
  have hnsp : nSpatialSlices m₁ echoes = nSpatialSlices m₂ echoes := by
    unfold nSpatialSlices
    rw [hlen]
  have hT : nTimePoints m₁ echoes = nTimePoints m₂ echoes := by
    unfold nTimePoints
    rw [htot, hnsp]
  have hdg : ∀ k, dictGet m₁ k = dictGet m₂ k := dictGet_perm hperm hnd
  have hblock : ∀ e, sliceIndicesByEcho m₁ echoes e
      = sliceIndicesByEcho m₂ echoes e := by
    intro e
    unfold sliceIndicesByEcho
    rw [hS, hnsp]
  have hcell : ∀ e t x, manifestCell m₁ echoes e t x
      = manifestCell m₂ echoes e t x := by
    intro e t x
    unfold manifestCell
    rw [hblock]
    congr 1
    funext idx
    rw [hdg idx]
  have hrows : ∀ e, echoRows m₁ echoes e = echoRows m₂ echoes e := by
    intro e
    unfold echoRows
    rw [hT, hnsp]
    exact mapOpt_congr _ (fun t _ =>
      mapOpt_congr _ (fun x _ => hcell e t x))
  have htop : mapOpt (fun e => echoRows m₁ echoes e) (List.range echoes)
      = mapOpt (fun e => echoRows m₂ echoes e) (List.range echoes) :=
    mapOpt_congr _ (fun e _ => hrows e)
  unfold buildManifests
  rw [hnsp, htop]

/-- Witness for C8: the same two-index mapping in two insertion orders. -/
theorem manifests_deterministic_c8_witness :
    buildManifests [(2, ["b"]), (1, ["a"])] 2
      = buildManifests [(1, ["a"]), (2, ["b"])] 2 :=
  manifests_deterministic_c8 [(2, ["b"]), (1, ["a"])] [(1, ["a"]), (2, ["b"])] 2
    (by decide) (by decide)

end XNATFetch
